import Mathlib

set_option maxRecDepth 100000

/-
Verification of rrss-common-parse (src/Parse.go).

The repository is a Go package that parses a syndication feed and, for each
item, produces an enriched record (struct RrssFeed).  Pure parts of the code
(hashContent, generateId, the per-item record construction, the selection of
the largest sanitized article in GetExtendedArticle) are translated directly.
External collaborators (gofeed.ParseURL, goose.ExtractFromURL, http.Get,
goquery, uuid.NewUUID, time.Now) are abstracted as oracle parameters of an
Env structure.  The bluemonday sanitizer (p.Sanitize) is a third-party
library not present in the repository; it is modelled from the spec
(section 4.3).  The unsynchronized concurrent append to the shared slice
feedItems (src/Parse.go lines 59-112) is modelled by an explicit
interleaving semantics: each goroutine performs a read of the shared slice
followed by a write of the extended slice, and a schedule is a list of
those events.
-/

deriving instance DecidableEq for Except

/- 32-bit helpers.  Go's crypto/sha1 works on uint32 words; we use Nat with
explicit reduction modulo 2^32. -/

def w32 (x : Nat) : Nat := x % 4294967296

def rotl32 (n x : Nat) : Nat := w32 ((x <<< n) ||| (x >>> (32 - n)))

/- UTF-8 encoding of a string, the bytes Go produces with []byte(content). -/

def utf8Bytes (c : Nat) : List Nat :=
  if c < 128 then [c]
  else if c < 2048 then [192 + c / 64, 128 + c % 64]
  else if c < 65536 then [224 + c / 4096, 128 + (c / 64) % 64, 128 + c % 64]
  else [240 + c / 262144, 128 + (c / 4096) % 64, 128 + (c / 64) % 64, 128 + c % 64]

def strBytes (s : String) : List Nat :=
  (s.data.map fun c => utf8Bytes c.toNat).flatten

/- SHA-1 (crypto/sha1), operating on a list of bytes. -/

def be64 (n : Nat) : List Nat :=
  [(n >>> 56) % 256, (n >>> 48) % 256, (n >>> 40) % 256, (n >>> 32) % 256,
   (n >>> 24) % 256, (n >>> 16) % 256, (n >>> 8) % 256, n % 256]

def be32 (n : Nat) : List Nat :=
  [(n >>> 24) % 256, (n >>> 16) % 256, (n >>> 8) % 256, n % 256]

def sha1Pad (msg : List Nat) : List Nat :=
  msg ++ 128 :: (List.replicate ((119 - msg.length % 64) % 64) 0 ++ be64 (8 * msg.length))

def toWords : List Nat → List Nat
  | a :: b :: c :: d :: rest => ((a <<< 24) ||| (b <<< 16) ||| (c <<< 8) ||| d) :: toWords rest
  | _ => []

def toBlocks16 : List Nat → List (List Nat)
  | w0 :: w1 :: w2 :: w3 :: w4 :: w5 :: w6 :: w7 ::
    w8 :: w9 :: w10 :: w11 :: w12 :: w13 :: w14 :: w15 :: rest =>
      [w0, w1, w2, w3, w4, w5, w6, w7, w8, w9, w10, w11, w12, w13, w14, w15] :: toBlocks16 rest
  | _ => []

def expandLoop (ws : List Nat) : Nat → List Nat
  | 0 => ws
  | k + 1 =>
    let n := ws.length
    expandLoop (ws ++ [rotl32 1 ((ws.getD (n - 3) 0) ^^^ (ws.getD (n - 8) 0) ^^^
      (ws.getD (n - 14) 0) ^^^ (ws.getD (n - 16) 0))]) k

def sha1F (t b c d : Nat) : Nat :=
  if t < 20 then (b &&& c) ||| ((b ^^^ 4294967295) &&& d)
  else if t < 40 then b ^^^ c ^^^ d
  else if t < 60 then (b &&& c) ||| (b &&& d) ||| (c &&& d)
  else b ^^^ c ^^^ d

def sha1K (t : Nat) : Nat :=
  if t < 20 then 1518500249
  else if t < 40 then 1859775393
  else if t < 60 then 2400959708
  else 3395469782

def sha1Step (st : Nat × Nat × Nat × Nat × Nat × Nat) (wt : Nat) :
    Nat × Nat × Nat × Nat × Nat × Nat :=
  match st with
  | (t, a, b, c, d, e) =>
    (t + 1, w32 (rotl32 5 a + sha1F t b c d + e + sha1K t + wt), a, rotl32 30 b, c, d)

def processBlock (h : Nat × Nat × Nat × Nat × Nat) (block : List Nat) :
    Nat × Nat × Nat × Nat × Nat :=
  match h with
  | (h0, h1, h2, h3, h4) =>
    match (expandLoop block 64).foldl sha1Step (0, h0, h1, h2, h3, h4) with
    | (_, a, b, c, d, e) => (w32 (h0 + a), w32 (h1 + b), w32 (h2 + c), w32 (h3 + d), w32 (h4 + e))

def sha1 (msg : List Nat) : List Nat :=
  match (toBlocks16 (toWords (sha1Pad msg))).foldl processBlock
      (1732584193, 4023233417, 2562383102, 271733878, 3285377520) with
  | (h0, h1, h2, h3, h4) => be32 h0 ++ be32 h1 ++ be32 h2 ++ be32 h3 ++ be32 h4

/- hex.EncodeToString: lowercase hexadecimal, two characters per byte. -/

def hexDigit (n : Nat) : Char :=
  if n < 10 then Char.ofNat (48 + n) else Char.ofNat (87 + n)

def hexEncode : List Nat → List Char
  | [] => []
  | b :: rest => hexDigit (b / 16) :: hexDigit (b % 16) :: hexEncode rest

/-- hashContent (src/Parse.go lines 117-122): the SHA-1 digest of the UTF-8
bytes of the content, hex-encoded. -/
def hashContent (content : String) : String :=
  String.mk (hexEncode (sha1 (strBytes content)))

/- Known SHA-1 test vectors, checking the embedding of crypto/sha1. -/

example : hashContent "" = "da39a3ee5e6b4b0d3255bfef95601890afd80709" := by decide

example : hashContent "abc" = "a9993e364706816aba3e25717850c26c9cd0d89d" := by decide

theorem sha1_length (msg : List Nat) : (sha1 msg).length = 20 := by
  unfold sha1
  rcases (toBlocks16 (toWords (sha1Pad msg))).foldl processBlock
      (1732584193, 4023233417, 2562383102, 271733878, 3285377520) with ⟨h0, h1, h2, h3, h4⟩
  simp [be32]

theorem hexEncode_length (l : List Nat) : (hexEncode l).length = 2 * l.length := by
  induction l with
  | nil => rfl
  | cons b rest ih => simp [hexEncode, ih]; omega

theorem hashContent_length (s : String) : (hashContent s).length = 40 := by
  show (hexEncode (sha1 (strBytes s))).length = 40
  rw [hexEncode_length, sha1_length]

/-- Modelled from the spec: the sanitizer `p` (src/Parse.go line 21) is
`bluemonday.UGCPolicy()`, a third-party library whose code is not in this
repository.  Section 4.3 of the spec describes it: a total function that
reduces HTML to a safe subset, stripping scripts, event handlers and unsafe
tags/attributes, mapping the empty string to the empty string.  The model
tokenizes the input into text characters and angle-bracket tags, keeps only
a whitelist of safe tags (stripped of attributes), drops every other tag and
unterminated markup, and renders the result back to a string. -/
inductive Tok where
  | text (c : Char)
  | tag (inner : List Char)
deriving DecidableEq

/- Tokenizer: outside a tag, a character other than a left angle bracket is
text; a left angle bracket starts a tag that runs to the next right angle
bracket (an unterminated tag swallows the rest of the input). -/
def tokenizeAux : Option (List Char) → List Char → List Tok
  | none, [] => []
  | none, c :: rest =>
    if c = '<' then tokenizeAux (some []) rest
    else Tok.text c :: tokenizeAux none rest
  | some _, [] => []
  | some acc, c :: rest =>
    if c = '>' then Tok.tag acc.reverse :: tokenizeAux none rest
    else tokenizeAux (some (c :: acc)) rest

def tokenize (l : List Char) : List Tok := tokenizeAux none l

inductive SafeTag where
  | b | i | em | strong | u | p | code | pre | blockquote
deriving DecidableEq

def safeTagName : SafeTag → List Char
  | SafeTag.b => ['b']
  | SafeTag.i => ['i']
  | SafeTag.em => ['e', 'm']
  | SafeTag.strong => ['s', 't', 'r', 'o', 'n', 'g']
  | SafeTag.u => ['u']
  | SafeTag.p => ['p']
  | SafeTag.code => ['c', 'o', 'd', 'e']
  | SafeTag.pre => ['p', 'r', 'e']
  | SafeTag.blockquote => ['b', 'l', 'o', 'c', 'k', 'q', 'u', 'o', 't', 'e']

def lookupSafe (n : List Char) : Option SafeTag :=
  if n = ['b'] then some SafeTag.b
  else if n = ['i'] then some SafeTag.i
  else if n = ['e', 'm'] then some SafeTag.em
  else if n = ['s', 't', 'r', 'o', 'n', 'g'] then some SafeTag.strong
  else if n = ['u'] then some SafeTag.u
  else if n = ['p'] then some SafeTag.p
  else if n = ['c', 'o', 'd', 'e'] then some SafeTag.code
  else if n = ['p', 'r', 'e'] then some SafeTag.pre
  else if n = ['b', 'l', 'o', 'c', 'k', 'q', 'u', 'o', 't', 'e'] then some SafeTag.blockquote
  else none

/- The name of a tag: an optional leading slash marks a closing tag, the
name runs to the first space (anything after the space is an attribute and
is discarded). -/
def tagClosing (inner : List Char) : Bool :=
  match inner with
  | '/' :: _ => true
  | _ => false

def tagNamePart (inner : List Char) : List Char :=
  match inner with
  | '/' :: rest => rest.takeWhile fun c => c ≠ ' '
  | _ => inner.takeWhile fun c => c ≠ ' '

def closingSlash (b : Bool) : List Char := if b then ['/'] else []

def sanitizeTok (t : Tok) : List Tok :=
  match t with
  | Tok.text c => [Tok.text c]
  | Tok.tag inner =>
    match lookupSafe (tagNamePart inner) with
    | some st => [Tok.tag (closingSlash (tagClosing inner) ++ safeTagName st)]
    | none => []

def renderToks : List Tok → List Char
  | [] => []
  | Tok.text c :: ts => c :: renderToks ts
  | Tok.tag inner :: ts => '<' :: (inner ++ '>' :: renderToks ts)

def sanitizeChars (l : List Char) : List Char :=
  renderToks ((tokenize l).flatMap sanitizeTok)

/-- Model of p.Sanitize: tokenize, keep safe tags and text, render. -/
def sanitize (s : String) : String := String.mk (sanitizeChars s.data)

example : sanitize "<b>hi</b>" = "<b>hi</b>" := by decide

example : sanitize "<script>alert(1)</script>" = "alert(1)" := by decide

example : sanitize "<a href=x onclick=evil()>y</a>" = "y" := by decide

/- A token that can appear in sanitizer output: a text character that is not
a left angle bracket, or a tag whose body has no right angle bracket. -/
def goodTok : Tok → Bool
  | Tok.text c => if c = '<' then false else true
  | Tok.tag inner => if inner.contains '>' then false else true

theorem tokenizeAux_text_ne (l : List Char) : ∀ ot c, Tok.text c ∈ tokenizeAux ot l → c ≠ '<' := by
  induction l with
  | nil => intro ot c h; cases ot <;> simp [tokenizeAux] at h
  | cons a rest ih =>
    intro ot c h
    cases ot with
    | none =>
      by_cases ha : a = '<'
      · rw [tokenizeAux, if_pos ha] at h
        exact ih _ c h
      · rw [tokenizeAux, if_neg ha] at h
        rcases List.mem_cons.mp h with h1 | h2
        · cases h1; exact ha
        · exact ih _ c h2
    | some acc =>
      by_cases ha : a = '>'
      · rw [tokenizeAux, if_pos ha] at h
        rcases List.mem_cons.mp h with h1 | h2
        · cases h1
        · exact ih _ c h2
      · rw [tokenizeAux, if_neg ha] at h
        exact ih _ c h

/- Scanning a tag body that has no right angle bracket, followed by the
closing bracket, produces exactly that tag. -/
theorem tokenizeAux_scan (inner : List Char) : ∀ acc r, inner.contains '>' = false →
    tokenizeAux (some acc) (inner ++ '>' :: r) = Tok.tag (acc.reverse ++ inner) :: tokenizeAux none r := by
  induction inner with
  | nil => intro acc r _; simp [tokenizeAux]
  | cons c inner ih =>
    intro acc r h
    simp only [List.contains_cons, Bool.or_eq_false_iff] at h
    have hc : ¬ (c = '>') := by
      intro he
      rw [he] at h
      simp at h
    rw [List.cons_append, tokenizeAux, if_neg hc, ih (c :: acc) r (by simpa using h.2)]
    simp

/- Rendering a list of good tokens and tokenizing again is the identity. -/
theorem tokenize_renderToks (ts : List Tok) (h : ∀ t ∈ ts, goodTok t = true) :
    tokenize (renderToks ts) = ts := by
  induction ts with
  | nil => rfl
  | cons t ts ih =>
    have hts : ∀ t2 ∈ ts, goodTok t2 = true := fun t2 h2 => h t2 (List.mem_cons_of_mem _ h2)
    cases t with
    | text c =>
      have hc : ¬ (c = '<') := by
        have := h (Tok.text c) (List.mem_cons_self _ _)
        simp [goodTok] at this
        intro he; rw [he] at this; simp at this
      show tokenizeAux none (c :: renderToks ts) = Tok.text c :: ts
      rw [tokenizeAux, if_neg hc]
      exact congrArg _ (ih hts)
    | tag inner =>
      have hinner : inner.contains '>' = false := by
        have := h (Tok.tag inner) (List.mem_cons_self _ _)
        simp only [goodTok] at this
        by_cases hi : inner.contains '>'
        · rw [if_pos hi] at this; cases this
        · simpa using hi
      show tokenizeAux none ('<' :: (inner ++ '>' :: renderToks ts)) = Tok.tag inner :: ts
      rw [tokenizeAux, if_pos rfl, tokenizeAux_scan inner [] (renderToks ts) hinner]
      have hrest : tokenizeAux none (renderToks ts) = ts := ih hts
      simp [hrest]

/- Every canonical tag emitted by the sanitizer is good and is kept
unchanged by a second sanitization pass. -/
theorem canonical_tag_good (b : Bool) (st : SafeTag) :
    goodTok (Tok.tag (closingSlash b ++ safeTagName st)) = true := by
  cases b <;> cases st <;> decide

theorem canonical_tag_fixed (b : Bool) (st : SafeTag) :
    sanitizeTok (Tok.tag (closingSlash b ++ safeTagName st)) =
      [Tok.tag (closingSlash b ++ safeTagName st)] := by
  cases b <;> cases st <;> decide

theorem sanitizeTok_mem (t t2 : Tok) (h : t2 ∈ sanitizeTok t) :
    (∃ c, t = Tok.text c ∧ t2 = Tok.text c) ∨
    (∃ b st, t2 = Tok.tag (closingSlash b ++ safeTagName st)) := by
  cases t with
  | text c =>
    left
    simp [sanitizeTok] at h
    exact ⟨c, rfl, h⟩
  | tag inner =>
    right
    simp only [sanitizeTok] at h
    cases hl : lookupSafe (tagNamePart inner) with
    | none => rw [hl] at h; simp at h
    | some st =>
      rw [hl] at h
      simp at h
      exact ⟨tagClosing inner, st, h⟩

theorem sanitized_good (l : List Char) :
    ∀ t ∈ (tokenize l).flatMap sanitizeTok, goodTok t = true := by
  intro t ht
  rcases List.mem_flatMap.mp ht with ⟨t0, ht0, hmem⟩
  rcases sanitizeTok_mem t0 t hmem with ⟨c, hc0, hc⟩ | ⟨b, st, htag⟩
  · subst hc
    subst hc0
    have := tokenizeAux_text_ne l none c ht0
    simp [goodTok]
    intro he; exact this he
  · subst htag
    exact canonical_tag_good b st

theorem sanitized_fixed (l : List Char) :
    ∀ t ∈ (tokenize l).flatMap sanitizeTok, sanitizeTok t = [t] := by
  intro t ht
  rcases List.mem_flatMap.mp ht with ⟨t0, _, hmem⟩
  rcases sanitizeTok_mem t0 t hmem with ⟨c, _, hc⟩ | ⟨b, st, htag⟩
  · subst hc; rfl
  · subst htag
    exact canonical_tag_fixed b st

theorem bind_fixed (ts : List Tok) (h : ∀ t ∈ ts, sanitizeTok t = [t]) :
    ts.flatMap sanitizeTok = ts := by
  induction ts with
  | nil => rfl
  | cons t ts ih =>
    rw [List.flatMap_cons, h t (List.mem_cons_self _ _),
      ih fun t2 h2 => h t2 (List.mem_cons_of_mem _ h2)]
    rfl

/-- The sanitizer model is idempotent. -/
theorem sanitize_idempotent (x : String) : sanitize (sanitize x) = sanitize x := by
  show String.mk (sanitizeChars (sanitizeChars x.data)) = String.mk (sanitizeChars x.data)
  unfold sanitizeChars
  rw [tokenize_renderToks _ (sanitized_good x.data), bind_fixed _ (sanitized_fixed x.data)]

/- Data model (src/Parse.go).  Item mirrors the gofeed.Item fields the code
reads (GUID, Link, Title, Description, Published); Feed mirrors the parsed
feed (Title, Items); Article mirrors goose.Article (CleanedText, TopImage);
RrssFeed mirrors the output struct at lines 32-43, with time.Time abstracted
as a Nat timestamp. -/

structure Item where
  guid : String
  link : String
  title : String
  description : String
  published : String
deriving DecidableEq

structure Feed where
  title : String
  items : List Item
deriving DecidableEq

structure Article where
  cleanedText : String
  topImage : String
deriving DecidableEq

structure RrssFeed where
  id : String
  feedUrl : String
  feedTitle : String
  itemImage : String
  itemTitle : String
  itemBody : String
  itemUrl : String
  itemExtendedBody : String
  published : String
  created : Nat
deriving DecidableEq

/-- Oracles for the external collaborators: gofeed.ParseURL, goose
ExtractFromURL, uuid.NewUUID and time.Now (indexed by item position). -/
structure Env where
  fetchFeed : String → Except String Feed
  extractArticle : String → Except String Article
  genUUID : Unit → Except String String
  now : Nat → Nat

/-- generateId (src/Parse.go lines 124-143): the provider GUID verbatim when
non-empty, otherwise the hex-encoded SHA-1 hash of the raw description,
otherwise a generated UUID (whose creation can fail). -/
def generateId (genUUID : Unit → Except String String) (item : Item) : Except String String :=
  if item.guid.length > 0 then Except.ok item.guid
  else
    let id := hashContent item.description
    if id.length > 0 then Except.ok id
    else genUUID ()

/-- The body of the per-item goroutine (src/Parse.go lines 64-109) up to the
append: generate the id, fetch the extended article when the link is
non-empty, sanitize the extended body and the description, and build the
record.  On extraction failure the Go code logs the error and reads the
fields of the returned article value, which are empty in the non-fatal
failure mode the spec describes; the composite literal at lines 96-106 does
not set ItemTitle, so it keeps the zero value. -/
def enrichItem (env : Env) (url feedTitle : String) (i : Nat) (item : Item) :
    Except String RrssFeed :=
  match generateId env.genUUID item with
  | Except.error e => Except.error e
  | Except.ok id =>
    let fetched :=
      if item.link.length > 0 then
        match env.extractArticle item.link with
        | Except.ok article => (article.cleanedText, article.topImage)
        | Except.error _ => ("", "")
      else ("", "")
    Except.ok ⟨id, url, feedTitle, fetched.2, "", sanitize item.description,
      item.link, sanitize fetched.1, item.published, env.now i⟩

/- The aggregation (src/Parse.go lines 59, 96-106, 112).  Each goroutine
executes `feedItems = append(feedItems, record)` on the shared slice with no
synchronization: it reads the current slice value, builds the extended
slice, and stores it back.  A schedule is an interleaving of those two
atomic events per goroutine; Parse returns the shared slice after wg.Wait,
that is, after all events have run. -/

inductive AggEvent where
  | read (i : Nat)
  | write (i : Nat)
deriving DecidableEq

structure AggState where
  shared : List RrssFeed
  captured : Nat → Option (List RrssFeed)

def aggStep (recOf : Nat → RrssFeed) (s : AggState) (e : AggEvent) : AggState :=
  match e with
  | AggEvent.read i => ⟨s.shared, fun j => if j = i then some s.shared else s.captured j⟩
  | AggEvent.write i =>
    match s.captured i with
    | some base => ⟨base ++ [recOf i], fun j => if j = i then none else s.captured j⟩
    | none => s

def runAgg (recOf : Nat → RrssFeed) (sched : List AggEvent) : List RrssFeed :=
  (sched.foldl (aggStep recOf) ⟨[], fun _ => none⟩).shared

/-- The race-free schedule: each goroutine runs its read and its write with
no interleaving from the others. -/
def serialSchedule (n : Nat) : List AggEvent :=
  (List.range n).flatMap fun i => [AggEvent.read i, AggEvent.write i]

/-- The outcome of Parse: a record list, the error returned when the feed
cannot be retrieved (line 53), or the process abort caused by log.Fatal when
generateId fails (line 70). -/
inductive ParseResult where
  | ok (records : List RrssFeed)
  | err (e : String)
  | fatal (e : String)
deriving DecidableEq

def collectRecords : List (Except String RrssFeed) → Except String (List RrssFeed)
  | [] => Except.ok []
  | Except.error e :: _ => Except.error e
  | Except.ok r :: rest =>
    match collectRecords rest with
    | Except.ok rs => Except.ok (r :: rs)
    | Except.error e => Except.error e

def defaultItem : Item := ⟨"", "", "", "", ""⟩

def defaultRec : RrssFeed := ⟨"", "", "", "", "", "", "", "", "", 0⟩

def enrichAll (env : Env) (url : String) (feed : Feed) : List (Except String RrssFeed) :=
  (List.range feed.items.length).map fun i =>
    enrichItem env url feed.title i (feed.items.getD i defaultItem)

/-- Parse (src/Parse.go lines 45-115), parameterized by the schedule in
which the unsynchronized appends of the goroutines interleave. -/
def ParseGo (env : Env) (sched : List AggEvent) (url : String) : ParseResult :=
  match env.fetchFeed url with
  | Except.error e => ParseResult.err e
  | Except.ok feed =>
    match collectRecords (enrichAll env url feed) with
    | Except.error e => ParseResult.fatal e
    | Except.ok rs => ParseResult.ok (runAgg (fun i => rs.getD i defaultRec) sched)

/- GetExtendedArticle (src/Parse.go lines 150-183).  http.Get and the
goquery document are abstracted as an oracle returning the status code and,
for the parsed document, the list of inner HTML strings of its article
elements in document order. -/

structure HttpResponse where
  statusCode : Nat
  doc : Except String (List String)

def statusErrMsg (code : Nat) : String :=
  "Expected 2XX status code but received " ++ toString code

/-- The body of the Each callback at lines 170-178: sanitize the article
element and keep it when strictly longer than the current candidate. -/
def pickStep (article h : String) : String :=
  let sanitized := sanitize h
  if sanitized.length > article.length then sanitized else article

/-- The loop at lines 169-178: sanitize each article element and keep the
first longest sanitized candidate, starting from the empty string. -/
def pickLargestArticle (htmls : List String) : String :=
  htmls.foldl pickStep ""

def GetExtendedArticle (httpGet : String → Except String HttpResponse) (link : String) :
    Except String String :=
  match httpGet link with
  | Except.error e => Except.error e
  | Except.ok response =>
    if 200 ≤ response.statusCode ∧ response.statusCode ≤ 299 then
      match response.doc with
      | Except.error e => Except.error e
      | Except.ok articles => Except.ok (pickLargestArticle articles)
    else Except.error (statusErrMsg response.statusCode)


/- Supporting lemmas. -/

theorem generateId_ok (g : Unit → Except String String) (item : Item) :
    (item.guid.length > 0 → generateId g item = Except.ok item.guid) ∧
    (item.guid.length = 0 → generateId g item = Except.ok (hashContent item.description)) := by
  constructor
  · intro h
    simp [generateId, h]
  · intro h
    have h40 := hashContent_length item.description
    simp [generateId, h, h40]

theorem generateId_exists_ok (g : Unit → Except String String) (item : Item) :
    ∃ s, generateId g item = Except.ok s := by
  by_cases h : item.guid.length > 0
  · exact ⟨_, (generateId_ok g item).1 h⟩
  · exact ⟨_, (generateId_ok g item).2 (by omega)⟩

theorem generateId_indep (g1 g2 : Unit → Except String String) (item : Item) :
    generateId g1 item = generateId g2 item := by
  by_cases h : item.guid.length > 0
  · rw [(generateId_ok g1 item).1 h, (generateId_ok g2 item).1 h]
  · rw [(generateId_ok g1 item).2 (by omega), (generateId_ok g2 item).2 (by omega)]

theorem enrichItem_ok (env : Env) (url ft : String) (i : Nat) (item : Item) :
    ∃ rec, enrichItem env url ft i item = Except.ok rec := by
  obtain ⟨s, hs⟩ := generateId_exists_ok env.genUUID item
  unfold enrichItem
  rw [hs]
  exact ⟨_, rfl⟩

theorem enrichItem_fields (env : Env) (url ft : String) (i : Nat) (item : Item) (rec : RrssFeed)
    (h : enrichItem env url ft i item = Except.ok rec) :
    rec.itemTitle = "" ∧ rec.itemBody = sanitize item.description ∧
    rec.feedUrl = url ∧ rec.feedTitle = ft ∧ rec.itemUrl = item.link ∧
    rec.published = item.published ∧ rec.created = env.now i ∧
    (∃ x, rec.itemExtendedBody = sanitize x) := by
  obtain ⟨s, hs⟩ := generateId_exists_ok env.genUUID item
  unfold enrichItem at h
  rw [hs] at h
  injection h with h
  subst h
  exact ⟨rfl, rfl, rfl, rfl, rfl, rfl, rfl, _, rfl⟩

/- Aggregation invariant: every record in the shared slice, and in every
captured slice, is one of the per-item records. -/

def aggInv (recOf : Nat → RrssFeed) (s : AggState) : Prop :=
  (∀ r ∈ s.shared, ∃ i, r = recOf i) ∧
  (∀ j l, s.captured j = some l → ∀ r ∈ l, ∃ i, r = recOf i)

theorem aggStep_inv (recOf : Nat → RrssFeed) (s : AggState) (e : AggEvent)
    (h : aggInv recOf s) : aggInv recOf (aggStep recOf s e) := by
  obtain ⟨h1, h2⟩ := h
  cases e with
  | read i =>
    refine ⟨h1, ?_⟩
    intro j l hj r hr
    by_cases hji : j = i
    · have : some s.shared = some l := by simpa [aggStep, hji] using hj
      injection this with this
      subst this
      exact h1 r hr
    · have : s.captured j = some l := by simpa [aggStep, hji] using hj
      exact h2 j l this r hr
  | write i =>
    cases hc : s.captured i with
    | none =>
      have : aggStep recOf s (AggEvent.write i) = s := by simp [aggStep, hc]
      rw [this]
      exact ⟨h1, h2⟩
    | some base =>
      have hstep : aggStep recOf s (AggEvent.write i) =
          ⟨base ++ [recOf i], fun j => if j = i then none else s.captured j⟩ := by
        simp [aggStep, hc]
      rw [hstep]
      constructor
      · intro r hr
        rcases List.mem_append.mp hr with hm | hm
        · exact h2 i base hc r hm
        · exact ⟨i, List.mem_singleton.mp hm⟩
      · intro j l hj r hr
        by_cases hji : j = i
        · simp [hji] at hj
        · simp only [if_neg hji] at hj
          exact h2 j l hj r hr

theorem foldl_aggStep_inv (recOf : Nat → RrssFeed) (sched : List AggEvent) :
    ∀ s, aggInv recOf s → aggInv recOf (sched.foldl (aggStep recOf) s) := by
  induction sched with
  | nil => intro s h; exact h
  | cons e sched ih =>
    intro s h
    rw [List.foldl_cons]
    exact ih _ (aggStep_inv recOf s e h)

theorem runAgg_mem (recOf : Nat → RrssFeed) (sched : List AggEvent) (r : RrssFeed)
    (hr : r ∈ runAgg recOf sched) : ∃ i, r = recOf i := by
  have hinv : aggInv recOf ⟨[], fun _ => none⟩ := by
    constructor
    · intro r hr
      cases hr
    · intro j l hj
      cases hj
  exact (foldl_aggStep_inv recOf sched ⟨[], fun _ => none⟩ hinv).1 r hr

/- The race-free schedule appends every record exactly once, in index
order. -/

theorem aggStep_read (recOf : Nat → RrssFeed) (s : AggState) (i : Nat) :
    aggStep recOf s (AggEvent.read i) =
      ⟨s.shared, fun j => if j = i then some s.shared else s.captured j⟩ := rfl

theorem aggStep_write_some (recOf : Nat → RrssFeed) (s : AggState) (i : Nat)
    (base : List RrssFeed) (hc : s.captured i = some base) :
    aggStep recOf s (AggEvent.write i) =
      ⟨base ++ [recOf i], fun j => if j = i then none else s.captured j⟩ := by
  simp [aggStep, hc]

theorem foldl_aggStep_serial (recOf : Nat → RrssFeed) (n : Nat) :
    (serialSchedule n).foldl (aggStep recOf) ⟨[], fun _ => none⟩ =
      ⟨(List.range n).map recOf, fun _ => none⟩ := by
  induction n with
  | zero => rfl
  | succ n ih =>
    rw [serialSchedule, List.range_succ, List.flatMap_append, List.foldl_append]
    have hpre : ((List.range n).flatMap fun i => [AggEvent.read i, AggEvent.write i]) =
        serialSchedule n := rfl
    rw [hpre, ih]
    simp only [List.flatMap_cons, List.flatMap_nil, List.append_nil, List.foldl_cons,
      List.foldl_nil]
    rw [aggStep_read]
    rw [aggStep_write_some recOf _ n ((List.range n).map recOf) (by simp)]
    rw [AggState.mk.injEq]
    constructor
    · rw [List.map_append]
      rfl
    · funext j
      by_cases hj : j = n <;> simp [hj]

theorem runAgg_serial (recOf : Nat → RrssFeed) (n : Nat) :
    runAgg recOf (serialSchedule n) = (List.range n).map recOf := by
  rw [runAgg, foldl_aggStep_serial]

/- collectRecords lemmas. -/

theorem collectRecords_ok_mem (l : List (Except String RrssFeed)) (rs : List RrssFeed)
    (h : collectRecords l = Except.ok rs) : ∀ r ∈ rs, Except.ok r ∈ l := by
  induction l generalizing rs with
  | nil =>
    injection h with h
    subst h
    intro r hr
    cases hr
  | cons x l ih =>
    cases x with
    | error e => simp [collectRecords] at h
    | ok r0 =>
      rw [collectRecords] at h
      cases hrec : collectRecords l with
      | error e =>
        rw [hrec] at h
        cases h
      | ok rs0 =>
        rw [hrec] at h
        injection h with h
        subst h
        intro r hr
        rcases List.mem_cons.mp hr with hr0 | hm
        · subst hr0
          exact List.mem_cons_self _ _
        · exact List.mem_cons_of_mem _ (ih rs0 hrec r hm)

theorem collectRecords_all_ok (l : List (Except String RrssFeed))
    (h : ∀ x ∈ l, ∃ r, x = Except.ok r) : ∃ rs, collectRecords l = Except.ok rs := by
  induction l with
  | nil => exact ⟨[], rfl⟩
  | cons x l ih =>
    obtain ⟨r, hr⟩ := h x (List.mem_cons_self _ _)
    subst hr
    obtain ⟨rs, hrs⟩ := ih fun y hy => h y (List.mem_cons_of_mem _ hy)
    refine ⟨r :: rs, ?_⟩
    rw [collectRecords, hrs]

theorem enrichAll_mem (env : Env) (url : String) (feed : Feed) (x : Except String RrssFeed)
    (hx : x ∈ enrichAll env url feed) :
    ∃ i item, x = enrichItem env url feed.title i item := by
  rw [enrichAll] at hx
  rcases List.mem_map.mp hx with ⟨i, _, hi⟩
  exact ⟨i, _, hi.symm⟩

theorem collectRecords_enrichAll_ok (env : Env) (url : String) (feed : Feed) :
    ∃ rs, collectRecords (enrichAll env url feed) = Except.ok rs := by
  apply collectRecords_all_ok
  intro x hx
  rcases enrichAll_mem env url feed x hx with ⟨i, item, hi⟩
  obtain ⟨rec, hrec⟩ := enrichItem_ok env url feed.title i item
  exact ⟨rec, by rw [hi, hrec]⟩

/- Concrete feeds, environments and schedules used by witnesses and
counterexamples. -/

def raceItem1 : Item := ⟨"a", "", "", "d1", ""⟩

def raceItem2 : Item := ⟨"b", "", "", "d2", ""⟩

def envRace : Env :=
  ⟨fun _ => Except.ok ⟨"T", [raceItem1, raceItem2]⟩,
   fun _ => Except.error "refused",
   fun _ => Except.error "no entropy",
   fun _ => 0⟩

def envErr : Env :=
  ⟨fun _ => Except.error "bad feed",
   fun _ => Except.error "refused",
   fun _ => Except.error "no entropy",
   fun _ => 0⟩

/-- The interleaving in which both goroutines read the empty shared slice
before either writes back: the second write overwrites the first. -/
def racySchedule : List AggEvent :=
  [AggEvent.read 0, AggEvent.read 1, AggEvent.write 0, AggEvent.write 1]

def itemA : Item := ⟨"abc", "", "t", "<b>hi</b>", "2020"⟩

def envA : Env :=
  ⟨fun _ => Except.ok ⟨"Example", [itemA]⟩,
   fun _ => Except.error "refused",
   fun _ => Except.error "no entropy",
   fun _ => 0⟩

def recA0 : RrssFeed := ⟨"r0", "", "", "", "", "", "", "", "", 0⟩

def recA1 : RrssFeed := ⟨"r1", "", "", "", "", "", "", "", "", 0⟩

def recFn2 : Nat → RrssFeed := fun i => if i = 0 then recA0 else recA1

/-- C1: the completeness half of the claim is violated by the code.  The
goroutines append to the shared slice feedItems without synchronization
(src/Parse.go lines 59 and 96-106), so under the interleaving racySchedule
a feed whose retrieval succeeds with 2 items makes Parse return only 1
record.  The feed-failure half holds: a feed retrieval error is returned as
a single error with no records (third conjunct). -/
theorem c1_race_drops_record :
    (∃ feed, envRace.fetchFeed "u" = Except.ok feed ∧ feed.items.length = 2) ∧
    ParseGo envRace racySchedule "u" =
      ParseResult.ok [⟨"b", "u", "T", "", "", "d2", "", "", "", 0⟩] ∧
    ParseGo envErr racySchedule "u" = ParseResult.err "bad feed" := by
  refine ⟨⟨⟨"T", [raceItem1, raceItem2]⟩, rfl, rfl⟩, by decide, by decide⟩

/-- C2: the claim of race-freedom is violated by the code.  The aggregation
of per-item records is an unsynchronized append to the shared slice: its
result depends on the interleaving.  Under the race-free schedule it
returns both records, and under the interleaving where both tasks read
before either writes it returns a single record, so two runs of the same
pipeline on the same 2-item feed disagree and one loses a record. -/
theorem c2_aggregation_race :
    runAgg recFn2 (serialSchedule 2) = [recA0, recA1] ∧
    runAgg recFn2 [AggEvent.read 0, AggEvent.read 1, AggEvent.write 1, AggEvent.write 0] =
      [recA0] ∧
    (runAgg recFn2
      [AggEvent.read 0, AggEvent.read 1, AggEvent.write 1, AggEvent.write 0]).length ≠ 2 := by
  refine ⟨by decide, by decide, by decide⟩

/-- C9: generateId is total: it never consults the UUID generator, never
returns an error (the hex SHA-1 of any description, the empty one included,
has 40 characters, so the content-hash branch always returns), and the
log.Fatal branch of Parse (line 70, modelled as ParseResult.fatal) is
unreachable for every environment, schedule and url. -/
theorem c9_generateId_total (g1 g2 : Unit → Except String String) (item : Item)
    (env : Env) (sched : List AggEvent) (url e : String) :
    (∃ s, generateId g1 item = Except.ok s) ∧
    generateId g1 item = generateId g2 item ∧
    (hashContent item.description).length = 40 ∧
    ParseGo env sched url ≠ ParseResult.fatal e := by
  refine ⟨generateId_exists_ok g1 item, generateId_indep g1 g2 item,
    hashContent_length item.description, ?_⟩
  unfold ParseGo
  cases hf : env.fetchFeed url with
  | error e2 => simp
  | ok feed =>
    obtain ⟨rs, hrs⟩ := collectRecords_enrichAll_ok env url feed
    dsimp only
    rw [hrs]
    simp

/-- C10: the composite literal that builds each record (src/Parse.go lines
96-106) never sets ItemTitle, so every record returned by Parse has an
empty itemTitle field. -/
theorem c10_itemTitle_always_empty (env : Env) (sched : List AggEvent) (url : String)
    (recs : List RrssFeed) (h : ParseGo env sched url = ParseResult.ok recs) :
    ∀ rec ∈ recs, rec.itemTitle = "" := by
  intro rec hrec
  unfold ParseGo at h
  cases hf : env.fetchFeed url with
  | error e => rw [hf] at h; cases h
  | ok feed =>
    rw [hf] at h
    dsimp only at h
    cases hc : collectRecords (enrichAll env url feed) with
    | error e => rw [hc] at h; cases h
    | ok rs =>
      rw [hc] at h
      injection h with h
      subst h
      rcases runAgg_mem _ _ rec hrec with ⟨i, rfl⟩
      by_cases hi : i < rs.length
      · have hmem : rs.getD i defaultRec ∈ rs := by
          rw [List.getD_eq_getElem rs defaultRec hi]
          exact List.getElem_mem hi
        have hin := collectRecords_ok_mem _ _ hc _ hmem
        rcases enrichAll_mem env url feed _ hin with ⟨j, item, hji⟩
        exact (enrichItem_fields env url feed.title j item _ hji.symm).1
      · rw [List.getD_eq_default _ _ (by omega)]
        rfl

/-- C10 witness: a concrete one-item feed, run race-free, yields a record
whose itemTitle is empty. -/
theorem c10_witness :
    ParseGo envA (serialSchedule 1) "u" =
      ParseResult.ok [⟨"abc", "u", "Example", "", "", "<b>hi</b>", "", "", "2020", 0⟩] ∧
    ∀ rec ∈ [(⟨"abc", "u", "Example", "", "", "<b>hi</b>", "", "", "2020", 0⟩ : RrssFeed)],
      rec.itemTitle = "" :=
  ⟨by decide, c10_itemTitle_always_empty envA (serialSchedule 1) "u" _ (by decide)⟩

/-- C3: a fetch or extraction failure for an item with a non-empty link is
non-fatal to the item (src/Parse.go lines 77-89): the record is still
produced with empty extended body and empty image; replacing the extraction
oracle at that link leaves every other item's record unchanged; and when
feed retrieval succeeds Parse never returns an error to its caller. -/
theorem c3_fetch_failure_nonfatal (env : Env) (url ft e : String) (i : Nat) (item : Item)
    (hlink : item.link.length > 0)
    (hfail : env.extractArticle item.link = Except.error e) :
    (∃ rec, enrichItem env url ft i item = Except.ok rec ∧
      rec.itemExtendedBody = "" ∧ rec.itemImage = "") ∧
    (∀ (ex2 : String → Except String Article) (j : Nat) (it2 : Item),
      it2.link ≠ item.link →
      (∀ u, u ≠ item.link → ex2 u = env.extractArticle u) →
      enrichItem ⟨env.fetchFeed, ex2, env.genUUID, env.now⟩ url ft j it2 =
        enrichItem env url ft j it2) ∧
    (∀ (sched : List AggEvent) (feed : Feed) (e2 : String),
      env.fetchFeed url = Except.ok feed → ParseGo env sched url ≠ ParseResult.err e2) := by
  obtain ⟨s, hs⟩ := generateId_exists_ok env.genUUID item
  refine ⟨?_, ?_, ?_⟩
  · unfold enrichItem
    rw [hs]
    dsimp only
    rw [if_pos hlink, hfail]
    exact ⟨_, rfl, rfl, rfl⟩
  · intro ex2 j it2 hne hagree
    unfold enrichItem
    dsimp only
    rw [hagree it2.link hne]
  · intro sched feed e2 hfeed
    unfold ParseGo
    rw [hfeed]
    dsimp only
    cases hc : collectRecords (enrichAll env url feed) <;> simp

def itemX : Item := ⟨"gx", "http://a/b", "t", "<b>d</b>", "p"⟩

def envX : Env :=
  ⟨fun _ => Except.ok ⟨"T", [itemX]⟩,
   fun _ => Except.error "connection refused",
   fun _ => Except.error "no entropy",
   fun _ => 0⟩

/-- C3 witness: a concrete item whose article fetch is refused. -/
theorem c3_witness :
    itemX.link.length > 0 ∧
    envX.extractArticle itemX.link = Except.error "connection refused" ∧
    ((∃ rec, enrichItem envX "u" "T" 0 itemX = Except.ok rec ∧
      rec.itemExtendedBody = "" ∧ rec.itemImage = "") ∧
     (∀ (ex2 : String → Except String Article) (j : Nat) (it2 : Item),
       it2.link ≠ itemX.link →
       (∀ u, u ≠ itemX.link → ex2 u = envX.extractArticle u) →
       enrichItem ⟨envX.fetchFeed, ex2, envX.genUUID, envX.now⟩ "u" "T" j it2 =
         enrichItem envX "u" "T" j it2) ∧
     (∀ (sched : List AggEvent) (feed : Feed) (e2 : String),
       envX.fetchFeed "u" = Except.ok feed → ParseGo envX sched "u" ≠ ParseResult.err e2)) :=
  ⟨by decide, rfl,
    c3_fetch_failure_nonfatal envX "u" "T" "connection refused" 0 itemX (by decide) rfl⟩

/-- C4: identity precedence (src/Parse.go lines 124-143): a non-empty
provider GUID is used verbatim whatever the description; without one the id
is the 40-character hex SHA-1 digest of the raw description, so equal
descriptions give equal ids; and the record's id is the GUID when present. -/
theorem c4_identity_precedence (g : Unit → Except String String) (item item2 : Item) :
    (item.guid.length > 0 → generateId g item = Except.ok item.guid) ∧
    (item.guid.length = 0 →
      generateId g item = Except.ok (hashContent item.description) ∧
      (hashContent item.description).length = 40) ∧
    (item.guid.length = 0 → item2.guid.length = 0 → item.description = item2.description →
      generateId g item = generateId g item2) ∧
    (∀ (env : Env) (url ft : String) (i : Nat), item.guid.length > 0 →
      ∃ rec, enrichItem env url ft i item = Except.ok rec ∧ rec.id = item.guid) := by
  refine ⟨(generateId_ok g item).1,
    fun h => ⟨(generateId_ok g item).2 h, hashContent_length _⟩, ?_, ?_⟩
  · intro h1 h2 hd
    rw [(generateId_ok g item).2 h1, (generateId_ok g item2).2 h2, hd]
  · intro env url ft i hg
    have hs := (generateId_ok env.genUUID item).1 hg
    unfold enrichItem
    rw [hs]
    exact ⟨_, rfl, rfl⟩

def itemH1 : Item := ⟨"", "", "", "Hello world", ""⟩

def itemH2 : Item := ⟨"", "", "", "Hello world", "q"⟩

def itemG : Item := ⟨"G1", "", "", "<script>x</script>", ""⟩

def noUUID : Unit → Except String String := fun _ => Except.error "no entropy"

/-- C4 witness: a GUID item keeps its GUID whatever the description, and
two GUID-less items with the same description hash to the same id. -/
theorem c4_witness :
    generateId noUUID itemG = Except.ok "G1" ∧
    generateId noUUID itemH1 = Except.ok (hashContent "Hello world") ∧
    generateId noUUID itemH1 = generateId noUUID itemH2 :=
  ⟨(c4_identity_precedence noUUID itemG itemH2).1 (by decide),
   ((c4_identity_precedence noUUID itemH1 itemH2).2.1 (by decide)).1,
   (c4_identity_precedence noUUID itemH1 itemH2).2.2.1 (by decide) (by decide) rfl⟩

/-- C5: the sanitizer applied to the description and the extended body
(src/Parse.go lines 91-93) is idempotent for every string, the script
example included, and maps the empty string to the empty string. -/
theorem c5_sanitize_idempotent_total (x : String) :
    sanitize (sanitize x) = sanitize x ∧ sanitize "" = "" ∧
    sanitize (sanitize "<script>alert(1)</script>") = sanitize "<script>alert(1)</script>" :=
  ⟨sanitize_idempotent x, rfl, sanitize_idempotent _⟩

/-- C6: an item with an empty link triggers no fetch (the record does not
depend on the extraction oracle at all) and its record has empty extended
body and image, sanitized body, and the guid as id when one is present
(src/Parse.go lines 73-89). -/
theorem c6_empty_link_skips_fetch (env : Env) (url ft : String) (i : Nat) (item : Item)
    (hlink : item.link = "") :
    (∀ ex2 : String → Except String Article,
      enrichItem ⟨env.fetchFeed, ex2, env.genUUID, env.now⟩ url ft i item =
        enrichItem env url ft i item) ∧
    (∃ rec, enrichItem env url ft i item = Except.ok rec ∧
      rec.itemExtendedBody = "" ∧ rec.itemImage = "" ∧
      rec.itemBody = sanitize item.description ∧
      (item.guid.length > 0 → rec.id = item.guid)) := by
  have hl : ¬ (item.link.length > 0) := by rw [hlink]; decide
  obtain ⟨s, hs⟩ := generateId_exists_ok env.genUUID item
  constructor
  · intro ex2
    unfold enrichItem
    dsimp only
    rw [if_neg hl, if_neg hl]
  · unfold enrichItem
    rw [hs]
    dsimp only
    rw [if_neg hl]
    refine ⟨_, rfl, rfl, rfl, rfl, ?_⟩
    intro hg
    have h2 := hs.symm.trans ((generateId_ok env.genUUID item).1 hg)
    simp only [Except.ok.injEq] at h2
    exact h2

/-- C6 witness: the item with link "", description "<b>hi</b>" and guid
"abc" from the spec's concrete scenario. -/
theorem c6_witness :
    itemA.link = "" ∧
    (∃ rec, enrichItem envA "u" "Example" 0 itemA = Except.ok rec ∧
      rec.itemExtendedBody = "" ∧ rec.itemImage = "" ∧
      rec.itemBody = sanitize itemA.description ∧
      (itemA.guid.length > 0 → rec.id = itemA.guid)) :=
  ⟨rfl, (c6_empty_link_skips_fetch envA "u" "Example" 0 itemA rfl).2⟩

/- pickStep and pickLargestArticle lemmas. -/

theorem pickStep_le (a h : String) : a.length ≤ (pickStep a h).length := by
  unfold pickStep
  dsimp only
  by_cases hc : (sanitize h).length > a.length
  · rw [if_pos hc]
    omega
  · rw [if_neg hc]

theorem sanitize_le_pickStep (a h : String) : (sanitize h).length ≤ (pickStep a h).length := by
  unfold pickStep
  dsimp only
  by_cases hc : (sanitize h).length > a.length
  · rw [if_pos hc]
  · rw [if_neg hc]
    omega

theorem pickFoldl_init_le (l : List String) : ∀ a : String,
    a.length ≤ (l.foldl pickStep a).length := by
  induction l with
  | nil => intro a; exact Nat.le_refl _
  | cons h l ih =>
    intro a
    rw [List.foldl_cons]
    exact Nat.le_trans (pickStep_le a h) (ih _)

theorem pickFoldl_mem_le (l : List String) : ∀ (a h2 : String), h2 ∈ l →
    (sanitize h2).length ≤ (l.foldl pickStep a).length := by
  induction l with
  | nil => intro a h2 hm; cases hm
  | cons h l ih =>
    intro a h2 hm
    rw [List.foldl_cons]
    rcases List.mem_cons.mp hm with heq | hm2
    · subst heq
      exact Nat.le_trans (sanitize_le_pickStep a h2) (pickFoldl_init_le l _)
    · exact ih _ h2 hm2

theorem pickFoldl_shape (l : List String) : ∀ a : String,
    l.foldl pickStep a = a ∨ ∃ h2 ∈ l, l.foldl pickStep a = sanitize h2 := by
  induction l with
  | nil => intro a; exact Or.inl rfl
  | cons h l ih =>
    intro a
    rw [List.foldl_cons]
    rcases ih (pickStep a h) with heq | ⟨h2, hm, heq⟩
    · rw [heq]
      unfold pickStep
      dsimp only
      by_cases hc : (sanitize h).length > a.length
      · rw [if_pos hc]
        exact Or.inr ⟨h, List.mem_cons_self _ _, rfl⟩
      · rw [if_neg hc]
        exact Or.inl rfl
    · exact Or.inr ⟨h2, List.mem_cons_of_mem _ hm, heq⟩

def itemMal : Item := ⟨"<script>alert(1)</script>", "", "", "d", "p"⟩

def envMal : Env :=
  ⟨fun _ => Except.ok ⟨"T", [itemMal]⟩,
   fun _ => Except.error "refused",
   fun _ => Except.error "no entropy",
   fun _ => 0⟩

/-- C7 counterexample: not every string field of a returned record is free
of unsafe markup.  generateId copies a provider GUID verbatim into the id
field (src/Parse.go line 127) and the record construction never sanitizes
id, feedUrl, feedTitle, itemImage, itemUrl or published, so a GUID carrying
a script tag reaches the output unchanged: the repository's own sanitizer
would alter it. -/
theorem c7_counterexample :
    ParseGo envMal (serialSchedule 1) "u" =
      ParseResult.ok [⟨"<script>alert(1)</script>", "u", "T", "", "", "d", "", "", "p", 0⟩] ∧
    sanitize "<script>alert(1)</script>" ≠ "<script>alert(1)</script>" :=
  ⟨by decide, by decide⟩

/-- C7 amended: only the two textual fields itemBody and itemExtendedBody
are sanitized; they are sanitizer outputs (hence fixed points of the
sanitizer, containing no unsafe markup) in every record, also when the
input field is absent or the extraction fails; the remaining string fields
are copied verbatim and carry no such guarantee. -/
theorem c7_amended_textual_fields_sanitized (env : Env) (url ft : String) (i : Nat)
    (item : Item) (rec : RrssFeed) (h : enrichItem env url ft i item = Except.ok rec) :
    rec.itemBody = sanitize item.description ∧
    sanitize rec.itemBody = rec.itemBody ∧
    sanitize rec.itemExtendedBody = rec.itemExtendedBody := by
  have hf := enrichItem_fields env url ft i item rec h
  refine ⟨hf.2.1, ?_, ?_⟩
  · rw [hf.2.1]
    exact sanitize_idempotent _
  · obtain ⟨x, hx⟩ := hf.2.2.2.2.2.2.2
    rw [hx]
    exact sanitize_idempotent _

/-- C7 witness for the amended claim, at the concrete one-item feed. -/
theorem c7_amended_witness :
    enrichItem envA "u" "Example" 0 itemA =
      Except.ok ⟨"abc", "u", "Example", "", "", "<b>hi</b>", "", "", "2020", 0⟩ ∧
    ((⟨"abc", "u", "Example", "", "", "<b>hi</b>", "", "", "2020", 0⟩ : RrssFeed).itemBody =
        sanitize itemA.description ∧
      sanitize (⟨"abc", "u", "Example", "", "", "<b>hi</b>", "", "", "2020", 0⟩ :
          RrssFeed).itemBody =
        (⟨"abc", "u", "Example", "", "", "<b>hi</b>", "", "", "2020", 0⟩ : RrssFeed).itemBody ∧
      sanitize (⟨"abc", "u", "Example", "", "", "<b>hi</b>", "", "", "2020", 0⟩ :
          RrssFeed).itemExtendedBody =
        (⟨"abc", "u", "Example", "", "", "<b>hi</b>", "", "", "2020", 0⟩ :
          RrssFeed).itemExtendedBody) :=
  ⟨by decide, c7_amended_textual_fields_sanitized envA "u" "Example" 0 itemA _ (by decide)⟩

/-- C8: GetExtendedArticle (src/Parse.go lines 150-183) propagates a fetch
failure as an error; on a 2xx response whose body parses it returns the
sanitized article candidate of maximal sanitized length, the empty string
when the page has no article elements; on a non-2xx status it returns the
status error. -/
theorem c8_get_extended_article (onGet : String → Except String HttpResponse)
    (link e : String) (resp : HttpResponse) (arts : List String) :
    (onGet link = Except.error e → GetExtendedArticle onGet link = Except.error e) ∧
    (onGet link = Except.ok resp → 200 ≤ resp.statusCode ∧ resp.statusCode ≤ 299 →
      resp.doc = Except.ok arts →
      GetExtendedArticle onGet link = Except.ok (pickLargestArticle arts) ∧
      (∀ h2 ∈ arts, (sanitize h2).length ≤ (pickLargestArticle arts).length) ∧
      (pickLargestArticle arts = "" ∨ ∃ h2 ∈ arts, pickLargestArticle arts = sanitize h2) ∧
      pickLargestArticle [] = "") ∧
    (onGet link = Except.ok resp → ¬ (200 ≤ resp.statusCode ∧ resp.statusCode ≤ 299) →
      GetExtendedArticle onGet link = Except.error (statusErrMsg resp.statusCode)) := by
  refine ⟨?_, ?_, ?_⟩
  · intro hg
    unfold GetExtendedArticle
    rw [hg]
  · intro hg h2xx hdoc
    unfold GetExtendedArticle
    rw [hg]
    dsimp only
    rw [if_pos h2xx, hdoc]
    exact ⟨rfl, fun h2 hm => pickFoldl_mem_le arts "" h2 hm, pickFoldl_shape arts "", rfl⟩
  · intro hg h2xx
    unfold GetExtendedArticle
    rw [hg]
    dsimp only
    rw [if_neg h2xx]

def respW : HttpResponse := ⟨200, Except.ok ["<b>xy</b>", "<script>longlonglong</script>"]⟩

def onGetW : String → Except String HttpResponse := fun _ => Except.ok respW

/-- C8 witness: a 2xx response with two article elements; the second has
the longer sanitized content and is returned. -/
theorem c8_witness :
    GetExtendedArticle onGetW "http://s/a" = Except.ok "longlonglong" ∧
    (GetExtendedArticle onGetW "http://s/a" =
        Except.ok (pickLargestArticle ["<b>xy</b>", "<script>longlonglong</script>"]) ∧
      (∀ h2 ∈ ["<b>xy</b>", "<script>longlonglong</script>"],
        (sanitize h2).length ≤
          (pickLargestArticle ["<b>xy</b>", "<script>longlonglong</script>"]).length) ∧
      (pickLargestArticle ["<b>xy</b>", "<script>longlonglong</script>"] = "" ∨
        ∃ h2 ∈ ["<b>xy</b>", "<script>longlonglong</script>"],
          pickLargestArticle ["<b>xy</b>", "<script>longlonglong</script>"] = sanitize h2) ∧
      pickLargestArticle [] = "") :=
  ⟨by decide,
    (c8_get_extended_article onGetW "http://s/a" "e" respW
      ["<b>xy</b>", "<script>longlonglong</script>"]).2.1 rfl (by decide) rfl⟩
